import Mathlib

/-!
Verification of the SNMPv2c caching proxy (snmp_proxy.cpp).

The embedding models the program at the byte level:

* a datagram is a `List Nat` of byte values;
* machine integers (`uint64_t` fields, `size_t` lengths) are `Nat` reduced
  modulo `2 ^ 64` exactly where the C arithmetic wraps;
* `char` is signed, as on the x86-64 SysV ABI the program is built for, so a
  content byte read through `*start` and added to a `uint64_t` is
  sign-extended (`sext8` below);
* reads of the receive buffer beyond the datagram (indeterminate bytes in the
  65536-byte array) are modeled as the byte 0;
* the constructor has two `std::string::assign` calls that can terminate the
  process instead of reporting failure: `data_.assign(start, end - start)`
  with a negative count when every check passes but the datagram ends before
  the data offset, and `community_.assign(start, community_length)` with a
  near-`2^64` count when the pointer sum in the preceding bounds check wraps.
  `parseSNMP` is a total function, so on those inputs it returns the
  placeholder `none`; the predicate `parseAborts` singles them out, and every
  theorem about a failing parse that speaks for the running program carries
  the hypothesis `¬ parseAborts`.
-/

namespace SNMPProxy

def TWO64 : Nat := 2 ^ 64

/-- Wrapping `uint64_t` subtraction `a - b`. -/
def sub64 (a b : Nat) : Nat := (a + TWO64 - b % TWO64) % TWO64

/-- Wrapping `uint64_t` addition `a + b`. -/
def add64 (a b : Nat) : Nat := (a + b) % TWO64

/-- Value contributed by a byte that is read through a signed `char` and then
converted to `uint64_t`: bytes with the high bit set are sign-extended. -/
def sext8 (b : Nat) : Nat := if b &&& 0x80 = 0 then b else TWO64 - 256 + b

/-- `SNMPSequence::DecodeASN1Int(start, end, result)`.  `s` is the underlying
buffer, `start` the position of the first length byte, `e` the index of the
one-past-the-end pointer.  Returns `(*result, bytes consumed)`.  The guard
`size > sizeof(result)` compares against `sizeof(uint64_t*) = 8`, and the
content bytes are accumulated through signed `char`, hence `sext8`. -/
def decodeASN1Int (s : List Nat) (start e : Nat) : Nat × Nat :=
  let b := s.getD start 0
  if b &&& 0x80 = 0 then (b, 1)
  else
    let size := b &&& 0x7F
    if 8 < size ∨ e < start + size then (0, 0)
    else
      ((List.range size).foldl
        (fun acc i => (acc * 256 % TWO64 + sext8 (s.getD (start + 1 + i) 0)) % TWO64) 0,
       size + 1)

/-- Byte `i` (little-endian) of the `uint64_t` value `v`, i.e.
`*((uint8_t*)&input + i)`. -/
def byteAt (v i : Nat) : Nat := v / 256 ^ i % 256

/-- The loop of `SNMPSequence::EncodeASN1Int`: `i` counts down from 8; the
first nonzero byte (scanning from the most significant) installs the long-form
header `i | 0x80`, after which every byte is appended. -/
def encodeGo (input : Nat) : Nat → List Nat → List Nat
  | 0, result => result
  | i + 1, result =>
    let b := byteAt input i
    let r1 := if result = [] ∧ 0 < b then [(i + 1) ||| 0x80] else result
    let r2 := if r1 = [] then r1 else r1 ++ [b]
    encodeGo input i r2

/-- `SNMPSequence::EncodeASN1Int(input)`. -/
def encodeASN1Int (input : Nat) : List Nat :=
  let v := input % TWO64
  if v < 0x80 then [v] else encodeGo v 8 []

/-- The fields of a parsed `SNMPSequence`; `initialized_` is modeled by the
`Option` in the parse result. `request_id` keeps the four wire bytes verbatim,
matching the raw 4-byte aliasing used by the program. -/
structure SNMPSequence where
  length : Nat
  community : List Nat
  community_index : List Nat
  pdu_type : Nat
  pdu_length : Nat
  request_id : List Nat
  data : List Nat
  deriving DecidableEq, Repr

/-- Outer sequence length field, decoded at index 1. -/
def outerLen (s : List Nat) : Nat × Nat := decodeASN1Int s 1 s.length

/-- Cursor after the outer length field (start of the version triple). -/
def pVer (s : List Nat) : Nat := 1 + (outerLen s).2

/-- Cursor of the community-length field (after version and string tag). -/
def pCommLen (s : List Nat) : Nat := pVer s + 4

/-- Community string length field. -/
def commLen (s : List Nat) : Nat × Nat := decodeASN1Int s (pCommLen s) s.length

/-- Cursor of the community string itself. -/
def pComm (s : List Nat) : Nat := pCommLen s + (commLen s).2

/-- Cursor of the PDU tag byte. -/
def pPdu (s : List Nat) : Nat := pComm s + (commLen s).1

/-- PDU length field, decoded after the PDU tag. -/
def pduLen (s : List Nat) : Nat × Nat := decodeASN1Int s (pPdu s + 1) s.length

/-- Cursor of the request-id integer tag. -/
def pInt (s : List Nat) : Nat := pPdu s + 1 + (pduLen s).2

/-- Cursor of the four request-id bytes. -/
def pRid (s : List Nat) : Nat := pInt s + 2

/-- Cursor of the trailing PDU data. -/
def pData (s : List Nat) : Nat := pRid s + 4

/-- The raw community string captured by `community_.assign`. -/
def rawComm (s : List Nat) : List Nat := (s.drop (pComm s)).take (commLen s).1

/-- `community_.find('@')`: the index of the first `@` byte in the raw
community, or its length when absent. -/
def atSign (s : List Nat) : Nat := (rawComm s).findIdx (fun b => b == 64)

/-- `SNMPSequence::SNMPSequence(start, end)`: the checks appear in source
order. Outside `parseAborts`, the result is `some` exactly when the
constructor ends with `initialized_ = true` and `none` exactly when it
returns early with `initialized_ = false`. On `parseAborts` inputs the
running constructor never reaches either outcome: it calls a
`std::string::assign` whose count cannot fit (a negative `end - start` at
`data_.assign`, or a near-`2^64` `community_length` admitted by a wrapped
pointer bound check), the uncaught `std::length_error` terminates the
process, and this total function returns the placeholder `none`. -/
def parseSNMP (s : List Nat) : Option SNMPSequence :=
  if s.length < 7 then none
  else if s.getD 0 0 ≠ 0x30 then none
  else if (outerLen s).1 = 0 then none
  else if ¬ (s.getD (pVer s) 0 = 2 ∧ s.getD (pVer s + 1) 0 = 1 ∧
             s.getD (pVer s + 2) 0 = 1) then none
  else if s.getD (pVer s + 3) 0 ≠ 4 then none
  else if (commLen s).1 = 0 then none
  else if s.length < pComm s + (commLen s).1 then none
  else if s.length < pPdu s + 5 then none
  else if ¬ (s.getD (pPdu s) 0 = 0xA0 ∨ s.getD (pPdu s) 0 = 0xA1 ∨
             s.getD (pPdu s) 0 = 0xA2 ∨ s.getD (pPdu s) 0 = 0xA5) then none
  else if s.getD (pInt s) 0 ≠ 2 then none
  else if s.getD (pInt s + 1) 0 ≠ 4 then none
  else if s.length < pData s then none
  else
    some { length := if atSign s < (rawComm s).length then
                       sub64 (outerLen s).1 ((rawComm s).length - atSign s)
                     else (outerLen s).1,
           community := if atSign s < (rawComm s).length then
                          (rawComm s).take (atSign s)
                        else rawComm s,
           community_index := if atSign s < (rawComm s).length then
                                (rawComm s).drop (atSign s)
                              else [],
           pdu_type := s.getD (pPdu s) 0, pdu_length := (pduLen s).1,
           request_id := (s.drop (pRid s)).take 4, data := s.drop (pData s) }

/-- The constructor's checks up to and including `community_length == 0`:
`end - start >= 7`, the sequence tag, a nonzero outer length, the version
bytes `02 01 01`, the string tag `04`, and a nonzero community length. -/
def checksThroughCommLen (s : List Nat) : Prop :=
  7 ≤ s.length ∧ s.getD 0 0 = 0x30 ∧ (outerLen s).1 ≠ 0 ∧
  s.getD (pVer s) 0 = 2 ∧ s.getD (pVer s + 1) 0 = 1 ∧
  s.getD (pVer s + 2) 0 = 1 ∧ s.getD (pVer s + 3) 0 = 4 ∧ (commLen s).1 ≠ 0

instance (s : List Nat) : Decidable (checksThroughCommLen s) := by
  unfold checksThroughCommLen; infer_instance

/-- All of the constructor's checks through `*start != 0x04` for the
request-id length field: `checksThroughCommLen`, the community bound
`start + community_length <= end`, the PDU window `start + 5 <= end`, a
PDU tag in `{0xA0, 0xA1, 0xA2, 0xA5}`, and the tags `02 04` before the
request id. -/
def checksThroughIntTag (s : List Nat) : Prop :=
  checksThroughCommLen s ∧ pComm s + (commLen s).1 ≤ s.length ∧
  pPdu s + 5 ≤ s.length ∧
  (s.getD (pPdu s) 0 = 0xA0 ∨ s.getD (pPdu s) 0 = 0xA1 ∨
   s.getD (pPdu s) 0 = 0xA2 ∨ s.getD (pPdu s) 0 = 0xA5) ∧
  s.getD (pInt s) 0 = 2 ∧ s.getD (pInt s + 1) 0 = 4

instance (s : List Nat) : Decidable (checksThroughIntTag s) := by
  unfold checksThroughIntTag; infer_instance

/-- The datagrams on which the constructor can terminate the process
instead of setting `initialized_`. Two families:

* `data_.assign(start, end - start)` (the unchecked last assign): every
  check passes but the datagram ends before the data offset, so
  `end - start` is negative, the count converts to a near-`2^64`
  `size_t`, and `assign` throws an uncaught `std::length_error`;
* `community_.assign(start, community_length)`: a sign-extended
  `community_length` close to `2^64` can wrap the pointer sum in the
  guard `start + community_length > end` back below `end`, letting an
  `assign` with that count through to the same uncaught throw. Whether
  the sum wraps depends on the buffer's address; `2^64 - 2^57` keeps
  every length for which a canonical x86-64 user-space address can wrap,
  an over-approximation of the may-abort family. In the model's flat
  index arithmetic this family sits inside the failed community bound
  check `s.length < pComm s + (commLen s).1`. -/
def parseAborts (s : List Nat) : Prop :=
  (checksThroughCommLen s ∧ s.length < pComm s + (commLen s).1 ∧
    TWO64 - 2 ^ 57 ≤ (commLen s).1) ∨
  (checksThroughIntTag s ∧ s.length < pData s)

instance (s : List Nat) : Decidable (parseAborts s) := by
  unfold parseAborts; infer_instance

/-- `SNMPSequence::Serialize()`, in the exact append order of the source. -/
def serialize (m : SNMPSequence) : List Nat :=
  0x30 :: encodeASN1Int m.length ++ [2, 1, 1] ++ [4]
    ++ encodeASN1Int m.community.length ++ m.community
    ++ m.pdu_type :: encodeASN1Int m.pdu_length ++ [2, 4]
    ++ m.request_id ++ m.data

/-- The part of the `Serialize` output that precedes the four request-id
bytes. -/
def serializeHead (m : SNMPSequence) : List Nat :=
  0x30 :: encodeASN1Int m.length ++ [2, 1, 1] ++ [4]
    ++ encodeASN1Int m.community.length ++ m.community
    ++ m.pdu_type :: encodeASN1Int m.pdu_length ++ [2, 4]

/-- `SNMPSequence::set_community(community)`. -/
def set_community (c : List Nat) (m : SNMPSequence) : SNMPSequence :=
  { m with
    length := add64 (sub64 m.length
                      (m.community.length + (encodeASN1Int m.community.length).length - 1))
                    (c.length + (encodeASN1Int c.length).length - 1),
    community := c }

/-- `SNMPSequence::set_pdu_type(pdu_type)`; the parameter is a `uint8_t`. -/
def set_pdu_type (t : Nat) (m : SNMPSequence) : SNMPSequence :=
  { m with pdu_type := t % 256 }

/-- `SNMPSequence::set_error(error)`: writes `data_[2]`.  `List.set` models
the in-bounds write; the out-of-bounds case is undefined behavior in the
source (see `setErrorInBounds`). -/
def set_error (e : Nat) (m : SNMPSequence) : SNMPSequence :=
  { m with data := m.data.set 2 (e % 256) }

/-- The bound the indexed write `data_[2] = error` needs in order to be
defined on a `std::string`. -/
def setErrorInBounds (m : SNMPSequence) : Prop := 2 < m.data.length

/-- `SNMPSequence::set_data(data)`, with the source's exact update order. -/
def set_data (d : List Nat) (m : SNMPSequence) : SNMPSequence :=
  let len1 := sub64 m.length (m.data.length + (encodeASN1Int m.pdu_length).length - 1)
  let len2 := add64 len1 d.length
  let pl := add64 (sub64 m.pdu_length m.data.length) d.length
  { m with length := add64 len2 ((encodeASN1Int pl).length - 1),
           pdu_length := pl, data := d }

/-- Fuel-driven big-endian digit expansion; the fuel only needs to dominate
the value, which `natBE` below arranges. -/
def natBEGo : Nat → Nat → List Nat
  | 0, _ => []
  | fuel + 1, v => if v = 0 then [] else natBEGo fuel (v / 256) ++ [v % 256]

/-- Minimal big-endian byte representation of `v` (leading zero bytes
suppressed); the specification-side description of the long-form content
bytes. -/
def natBE (v : Nat) : List Nat := natBEGo v v

/-- The `i` most significant-to-least bytes of `v`: positions `i-1` down
to `0`. -/
def bePad : Nat → Nat → List Nat
  | 0, _ => []
  | i + 1, v => byteAt v i :: bePad i v

/-- Big-endian unsigned value of a byte list. -/
def beVal (l : List Nat) : Nat := l.foldl (fun a b => a * 256 + b) 0

/-- All content bytes of the minimal big-endian representation of `v` are
below `0x80`, so reading them through a signed `char` does not sign-extend. -/
def goodEnc (v : Nat) : Prop := ∀ b ∈ natBE v, b < 0x80

instance (v : Nat) : Decidable (goodEnc v) := by
  unfold goodEnc; infer_instance

/-- `SNMPProxy::CacheKey`: the five-component key. -/
structure CacheKey where
  backend_host : List Nat
  community : List Nat
  community_index : List Nat
  request_type : Nat
  request_data : List Nat
  deriving DecidableEq, Repr

/-- `SNMPProxy::CacheValue`: response data plus the insertion timestamp. -/
structure CacheValue where
  response_data : List Nat
  time : Int
  deriving DecidableEq, Repr

/-- The `unordered_map` cache, modeled as an association list. -/
abbrev Cache := List (CacheKey × CacheValue)

/-- `cache_.find(key)`. -/
def cacheFind (c : Cache) (k : CacheKey) : Option CacheValue :=
  (c.find? (fun e => decide (e.1 = k))).map (fun e => e.2)

/-- `cache_.erase(entry)` of the entry found for `k`. -/
def cacheErase (c : Cache) (k : CacheKey) : Cache :=
  c.eraseP (fun e => decide (e.1 = k))

/-- `cache_[key] = value`: overwrites any entry under the same key. -/
def cacheInsert (c : Cache) (k : CacheKey) (v : CacheValue) : Cache :=
  (k, v) :: cacheErase c k

/-- The lookup step at the top of `GetResponse` (lines 349-365): a stale
entry (`now > time + ttl`) is evicted and reported as a miss; a fresh one is
served. Returns the cache after the step and the hit, if any. -/
def cacheLookup (c : Cache) (ttl now : Int) (k : CacheKey) : Cache × Option (List Nat) :=
  match cacheFind c k with
  | none => (c, none)
  | some v => if now > v.time + ttl then (cacheErase c k, none)
              else (c, some v.response_data)

/-- The `CacheKey` built at the top of `GetResponse`. -/
def mkCacheKey (bh : List Nat) (m : SNMPSequence) : CacheKey :=
  { backend_host := bh, community := m.community,
    community_index := m.community_index, request_type := m.pdu_type,
    request_data := m.data }

/-- The `do { send; wait } while (num_retries <= num_backend_retries_ &&
response_size == 0)` loop.  `oracle i` is the reply (if any) that attempt
number `i` receives before its timeout; the first component of the result is
the number of send attempts performed, the second the reply the loop ended
with.  The fuel argument is an upper bound on the iterations and is passed as
`R + 1`. -/
def backendLoop (R : Nat) (oracle : Nat → Option (List Nat)) : Nat → Nat → Nat × Option (List Nat)
  | sends, 0 => (sends, none)
  | sends, fuel + 1 =>
    let resp := oracle sends
    let sends' := sends + 1
    if sends' ≤ R ∧ resp = none then backendLoop R oracle sends' fuel else (sends', resp)

/-- `SNMPProxy::GetResponse(backend_host, snmp_request)` with the network
abstracted by `oracle` and the wall clock by `now`.  Returns the bytes for
the client, the cache after the call, and the number of backend send
attempts. -/
def getResponse (R : Nat) (ttl now : Int) (cache : Cache) (bh : List Nat)
    (req : SNMPSequence) (oracle : Nat → Option (List Nat)) :
    List Nat × Cache × Nat :=
  let key := mkCacheKey bh req
  let lr := cacheLookup cache ttl now key
  match lr.2 with
  | some respData =>
    (serialize (set_data respData (set_pdu_type 0xA2 (set_community bh req))), lr.1, 0)
  | none =>
    match backendLoop R oracle 0 (R + 1) with
    | (sends, none) =>
      let r1 := set_community bh req
      let r2 := set_pdu_type 0xA2 r1
      let r3 := set_error 13 r2
      let c2 := cacheInsert lr.1 key { response_data := r3.data, time := now }
      let r4 := set_community bh r3
      (serialize r4, c2, sends)
    | (sends, some b) =>
      match parseSNMP b with
      | some resp =>
        let c2 := cacheInsert lr.1 key { response_data := resp.data, time := now }
        (serialize (set_community bh resp), c2, sends)
      | none => (b, lr.1, sends)

/-- One iteration of the front-end loop in `SNMPProxy::Start` (lines 67-98):
parse the datagram, silently drop it unless it parsed and its PDU type is
GetRequest, GetNextRequest or GetBulkRequest, otherwise rewrite the community
and answer through `getResponse`.  Returns the datagram sent back (if any),
the cache afterwards, and the number of backend sends. -/
def frontEndStep (R : Nat) (ttl now : Int) (backend_community : List Nat)
    (cache : Cache) (packet : List Nat) (oracle : Nat → Option (List Nat)) :
    Option (List Nat) × Cache × Nat :=
  match parseSNMP packet with
  | none => (none, cache, 0)
  | some m =>
    if m.pdu_type = 0xA0 ∨ m.pdu_type = 0xA1 ∨ m.pdu_type = 0xA5 then
      let bh := m.community
      let m2 := set_community (backend_community ++ m.community_index) m
      let r := getResponse R ttl now cache bh m2 oracle
      (some r.1, r.2.1, r.2.2)
    else (none, cache, 0)

/-- An arbitrary mutator call on a parsed message. -/
inductive Mut where
  | setCommunityM : List Nat → Mut
  | setPduTypeM : Nat → Mut
  | setDataM : List Nat → Mut
  | setErrorM : Nat → Mut

/-- Apply one mutator call. -/
def applyMut (m : SNMPSequence) : Mut → SNMPSequence
  | .setCommunityM c => set_community c m
  | .setPduTypeM t => set_pdu_type t m
  | .setDataM d => set_data d m
  | .setErrorM e => set_error e m

/-- Apply a sequence of mutator calls, in order. -/
def applyMuts (m : SNMPSequence) (ops : List Mut) : SNMPSequence :=
  ops.foldl applyMut m

/-- The framing invariant: `length` and `pdu_length` are exactly the BER
lengths that `Serialize` would need for the current fields (spec section 3),
together with the size bounds under which the wrapping 64-bit length
arithmetic is exact.  `request_id.length = 4` records the four wire bytes. -/
def lengthInvariant (m : SNMPSequence) : Prop :=
  m.request_id.length = 4 ∧
  m.pdu_length = 6 + m.data.length ∧
  m.length = 11 + (encodeASN1Int m.community.length).length + m.community.length +
             (encodeASN1Int m.pdu_length).length + m.data.length ∧
  m.community.length < 2 ^ 60 ∧ m.data.length < 2 ^ 60

instance (m : SNMPSequence) : Decidable (lengthInvariant m) := by
  unfold lengthInvariant; infer_instance

/-- A concrete well-formed GetRequest used by the witnesses. -/
def sampleMsg : SNMPSequence :=
  { length := 17, community := [97], community_index := [], pdu_type := 0xA0,
    pdu_length := 9, request_id := [222, 173, 190, 239], data := [7, 8, 9] }

/-- The wire form of `sampleMsg`. -/
def sampleBytes : List Nat :=
  [0x30, 17, 2, 1, 1, 4, 1, 97, 0xA0, 9, 2, 4, 222, 173, 190, 239, 7, 8, 9]

/-! ### Arithmetic and bit-level helper lemmas -/

theorem TWO64_eq : TWO64 = 2 ^ 64 := rfl

theorem sub64_exact {a b : Nat} (hb : b ≤ a) (ha : a < TWO64) : sub64 a b = a - b := by
  have hb64 : b < TWO64 := lt_of_le_of_lt hb ha
  unfold sub64
  rw [Nat.mod_eq_of_lt hb64]
  have h1 : a + TWO64 - b = TWO64 + (a - b) := by omega
  rw [h1, Nat.add_mod_left, Nat.mod_eq_of_lt (by omega)]

theorem add64_exact {a b : Nat} (h : a + b < TWO64) : add64 a b = a + b :=
  Nat.mod_eq_of_lt h

theorem add64_sub64_cancel {a : Nat} (b : Nat) (ha : a < TWO64) :
    add64 (sub64 a b) b = a := by
  unfold sub64 add64
  have hb : b % TWO64 ≤ TWO64 := le_of_lt (Nat.mod_lt _ (by norm_num [TWO64]))
  rw [Nat.mod_add_mod]
  have h1 : a + TWO64 - b % TWO64 + b = a + TWO64 + (b - b % TWO64) := by
    have := Nat.mod_le b TWO64
    omega
  rw [h1]
  have h2 : b - b % TWO64 = TWO64 * (b / TWO64) := by
    have := (Nat.div_add_mod b TWO64).symm
    omega
  rw [h2, Nat.add_mul_mod_self_left, Nat.add_mod_right, Nat.mod_eq_of_lt ha]

theorem and128_eq_zero {b : Nat} (h : b < 128) : b &&& 0x80 = 0 := by
  revert h
  revert b
  show ∀ b < 128, b &&& 0x80 = 0
  decide

set_option maxRecDepth 4096 in
theorem byte_and_lemmas : ∀ b < 256, (b &&& 0x80 = 0 ↔ b < 128) ∧ b &&& 0x7F = b % 128 := by
  decide

theorem hdr_or_lemmas : ∀ n < 9, ((n ||| 0x80) &&& 0x80 = 128 ∧ (n ||| 0x80) &&& 0x7F = n ∧
    (n ||| 0x80) = 128 + n) := by
  decide

/-! ### Minimal big-endian representation -/

theorem natBEGo_fuel {f1 f2 v : Nat} (h1 : v ≤ f1) (h2 : v ≤ f2) :
    natBEGo f1 v = natBEGo f2 v := by
  induction f1 generalizing f2 v with
  | zero =>
    have hv : v = 0 := by omega
    subst hv
    cases f2 with
    | zero => rfl
    | succ f2 => simp [natBEGo]
  | succ f1 ih =>
    cases f2 with
    | zero =>
      have hv : v = 0 := by omega
      subst hv
      simp [natBEGo]
    | succ f2 =>
      by_cases hv : v = 0
      · subst hv
        simp [natBEGo]
      · have hd : v / 256 < v := Nat.div_lt_self (Nat.pos_of_ne_zero hv) (by norm_num)
        simp only [natBEGo, if_neg hv]
        exact congrArg (fun l => l ++ [v % 256]) (ih (by omega) (by omega))

theorem natBE_zero : natBE 0 = [] := rfl

theorem natBE_pos {v : Nat} (h : v ≠ 0) : natBE v = natBE (v / 256) ++ [v % 256] := by
  unfold natBE
  obtain ⟨f, rfl⟩ : ∃ f, v = f + 1 := ⟨v - 1, by omega⟩
  simp only [natBEGo, if_neg h]
  have hd : (f + 1) / 256 < f + 1 := Nat.div_lt_self (by omega) (by norm_num)
  rw [natBEGo_fuel (show (f + 1) / 256 ≤ f by omega) (le_refl _)]

theorem natBE_eq_nil_iff {v : Nat} : natBE v = [] ↔ v = 0 := by
  constructor
  · intro h
    by_contra hv
    rw [natBE_pos hv] at h
    simp at h
  · intro h
    rw [h, natBE_zero]

theorem bePad_length (i v : Nat) : (bePad i v).length = i := by
  induction i generalizing v with
  | zero => rfl
  | succ i ih => simp [bePad, ih]

theorem byteAt_zero (v : Nat) : byteAt v 0 = v % 256 := by
  simp [byteAt]

theorem byteAt_div (v i : Nat) : byteAt (v / 256) i = byteAt v (i + 1) := by
  unfold byteAt
  rw [Nat.div_div_eq_div_mul]
  ring_nf

theorem bePad_succ (i v : Nat) : bePad (i + 1) v = bePad i (v / 256) ++ [v % 256] := by
  induction i generalizing v with
  | zero => simp [bePad, byteAt_zero]
  | succ i ih =>
    show byteAt v (i + 1) :: bePad (i + 1) v =
      (byteAt (v / 256) i :: bePad i (v / 256)) ++ [v % 256]
    rw [List.cons_append, byteAt_div, ← ih]

theorem natBE_eq_cons {i v : Nat} (h1 : 256 ^ i ≤ v) (h2 : v < 256 ^ (i + 1)) :
    natBE v = v / 256 ^ i :: bePad i v := by
  induction i generalizing v with
  | zero =>
    have h1' : 1 ≤ v := by simpa using h1
    have h2' : v < 256 := by simpa using h2
    rw [natBE_pos (by omega)]
    have hd : v / 256 = 0 := Nat.div_eq_of_lt h2'
    rw [hd, natBE_zero]
    simp [bePad, Nat.mod_eq_of_lt h2', pow_zero]
  | succ i ih =>
    have hv : v ≠ 0 := by
      have : 0 < 256 ^ (i + 1) := Nat.pos_pow_of_pos _ (by norm_num)
      omega
    rw [natBE_pos hv]
    have hd1 : 256 ^ i ≤ v / 256 := by
      rw [Nat.le_div_iff_mul_le (by norm_num)]
      calc 256 ^ i * 256 = 256 ^ (i + 1) := by ring
        _ ≤ v := h1
    have hd2 : v / 256 < 256 ^ (i + 1) := by
      rw [Nat.div_lt_iff_lt_mul (by norm_num)]
      calc v < 256 ^ (i + 2) := h2
        _ = 256 ^ (i + 1) * 256 := by ring
    rw [ih hd1 hd2, List.cons_append, Nat.div_div_eq_div_mul]
    have h256 : (256 : Nat) * 256 ^ i = 256 ^ (i + 1) := by ring
    rw [h256, bePad_succ]

theorem natBE_length {i v : Nat} (h1 : 256 ^ i ≤ v) (h2 : v < 256 ^ (i + 1)) :
    (natBE v).length = i + 1 := by
  rw [natBE_eq_cons h1 h2]
  simp [bePad_length]

theorem natBE_length_le {i v : Nat} (h : v < 256 ^ i) : (natBE v).length ≤ i := by
  induction i generalizing v with
  | zero =>
    simp only [pow_zero, Nat.lt_one_iff] at h
    simp [h, natBE_zero]
  | succ i ih =>
    by_cases hv : v = 0
    · simp [hv, natBE_zero]
    · rw [natBE_pos hv]
      have : v / 256 < 256 ^ i := by
        rw [Nat.div_lt_iff_lt_mul (by norm_num)]
        calc v < 256 ^ (i + 1) := h
          _ = 256 ^ i * 256 := by ring
      simpa using ih this

theorem natBE_bytes_lt {v : Nat} : ∀ b ∈ natBE v, b < 256 := by
  induction v using Nat.strong_induction_on with
  | _ v ih =>
    by_cases hv : v = 0
    · simp [hv, natBE_zero]
    · rw [natBE_pos hv]
      intro b hb
      rcases List.mem_append.mp hb with h | h
      · exact ih (v / 256) (Nat.div_lt_self (Nat.pos_of_ne_zero hv) (by norm_num)) b h
      · simp only [List.mem_singleton] at h
        subst h
        exact Nat.mod_lt _ (by norm_num)

theorem natBE_pos_length {v : Nat} (h : v ≠ 0) : 1 ≤ (natBE v).length := by
  rw [natBE_pos h]
  simp

theorem beVal_append_singleton (l : List Nat) (b : Nat) :
    beVal (l ++ [b]) = beVal l * 256 + b := by
  simp [beVal, List.foldl_append]

theorem beVal_natBE (v : Nat) : beVal (natBE v) = v := by
  induction v using Nat.strong_induction_on with
  | _ v ih =>
    by_cases hv : v = 0
    · simp [hv, natBE_zero, beVal]
    · rw [natBE_pos hv, beVal_append_singleton,
        ih (v / 256) (Nat.div_lt_self (Nat.pos_of_ne_zero hv) (by norm_num))]
      omega

theorem beVal_lt {l : List Nat} (h : ∀ b ∈ l, b < 256) : beVal l < 256 ^ l.length := by
  induction l using List.reverseRecOn with
  | nil => simp [beVal]
  | append_singleton l b ih =>
    rw [beVal_append_singleton]
    have hb : b < 256 := h b (by simp)
    have hl : beVal l < 256 ^ l.length := ih (fun x hx => h x (by simp [hx]))
    calc beVal l * 256 + b < (beVal l + 1) * 256 := by omega
      _ ≤ 256 ^ l.length * 256 := by
          have : beVal l + 1 ≤ 256 ^ l.length := hl
          exact Nat.mul_le_mul_right _ this
      _ = 256 ^ (l ++ [b]).length := by simp [pow_succ]

/-! ### Characterization of `encodeASN1Int` -/

theorem encodeGo_succ (v i : Nat) (r : List Nat) :
    encodeGo v (i + 1) r =
      encodeGo v i (if (if r = [] ∧ 0 < byteAt v i then [(i + 1) ||| 0x80] else r) = []
                    then (if r = [] ∧ 0 < byteAt v i then [(i + 1) ||| 0x80] else r)
                    else (if r = [] ∧ 0 < byteAt v i then [(i + 1) ||| 0x80] else r)
                         ++ [byteAt v i]) := rfl

theorem encodeGo_ne_nil (v i : Nat) (r : List Nat) (h : r ≠ []) :
    encodeGo v i r = r ++ bePad i v := by
  induction i generalizing r with
  | zero => simp [encodeGo, bePad]
  | succ i ih =>
    have hP : ¬(r = [] ∧ 0 < byteAt v i) := by simp [h]
    rw [encodeGo_succ, if_neg hP, if_neg h, ih (r ++ [byteAt v i]) (by simp)]
    show r ++ [byteAt v i] ++ bePad i v = r ++ byteAt v i :: bePad i v
    simp

theorem encodeGo_top {v : Nat} (hv : 0 < v) :
    ∀ i, v < 256 ^ i → encodeGo v i [] = ((natBE v).length ||| 0x80) :: natBE v := by
  intro i
  induction i with
  | zero =>
    intro h
    simp only [pow_zero, Nat.lt_one_iff] at h
    omega
  | succ i ih =>
    intro hlt
    have hb : byteAt v i = v / 256 ^ i := by
      unfold byteAt
      exact Nat.mod_eq_of_lt (by
        rw [Nat.div_lt_iff_lt_mul (Nat.pos_pow_of_pos _ (by norm_num))]
        calc v < 256 ^ (i + 1) := hlt
          _ = 256 * 256 ^ i := by ring)
    by_cases hge : 256 ^ i ≤ v
    · have hbpos : 0 < byteAt v i := by
        rw [hb]
        exact Nat.one_le_div_iff (Nat.pos_pow_of_pos _ (by norm_num)) |>.mpr hge
      have hP : ([] : List Nat) = [] ∧ 0 < byteAt v i := ⟨rfl, hbpos⟩
      rw [encodeGo_succ, if_pos hP, if_neg (by simp),
        encodeGo_ne_nil v i ([(i + 1) ||| 0x80] ++ [byteAt v i]) (by simp)]
      rw [natBE_length hge hlt, natBE_eq_cons hge hlt, ← hb]
      simp
    · have hbz : byteAt v i = 0 := by
        rw [hb]
        exact Nat.div_eq_of_lt (by omega)
      have hP : ¬(([] : List Nat) = [] ∧ 0 < byteAt v i) := by simp [hbz]
      rw [encodeGo_succ, if_neg hP, if_pos rfl]
      exact ih (by omega)

theorem pow256_8 : (256 : Nat) ^ 8 = TWO64 := by
  norm_num [TWO64]

theorem encode_eq_of_lt {v : Nat} (h : v < 128) : encodeASN1Int v = [v] := by
  unfold encodeASN1Int
  have hm : v % TWO64 = v := Nat.mod_eq_of_lt (by unfold TWO64; omega)
  simp [hm, h]

theorem encode_eq_of_ge {v : Nat} (h128 : 128 ≤ v) (h64 : v < TWO64) :
    encodeASN1Int v = ((natBE v).length ||| 0x80) :: natBE v := by
  unfold encodeASN1Int
  have hm : v % TWO64 = v := Nat.mod_eq_of_lt h64
  rw [hm]
  rw [if_neg (by omega)]
  exact encodeGo_top (by omega) 8 (by rw [pow256_8]; exact h64)

theorem encode_mod (v : Nat) : encodeASN1Int v = encodeASN1Int (v % TWO64) := by
  unfold encodeASN1Int
  rw [Nat.mod_eq_of_lt (Nat.mod_lt _ (by norm_num [TWO64]))]

theorem encode_length_le (v : Nat) : (encodeASN1Int v).length ≤ 9 := by
  rw [encode_mod]
  have hw : v % TWO64 < TWO64 := Nat.mod_lt _ (by norm_num [TWO64])
  by_cases h : v % TWO64 < 128
  · rw [encode_eq_of_lt h]
    simp
  · rw [encode_eq_of_ge (by omega) hw]
    have : (natBE (v % TWO64)).length ≤ 8 := natBE_length_le (by rw [pow256_8]; exact hw)
    simp
    omega

theorem encode_length_pos (v : Nat) : 1 ≤ (encodeASN1Int v).length := by
  rw [encode_mod]
  have hw : v % TWO64 < TWO64 := Nat.mod_lt _ (by norm_num [TWO64])
  by_cases h : v % TWO64 < 128
  · rw [encode_eq_of_lt h]
    simp
  · rw [encode_eq_of_ge (by omega) hw]
    simp

/-! ### List position helpers -/

theorem getD_append_add (pre X : List Nat) (j : Nat) :
    (pre ++ X).getD (pre.length + j) 0 = X.getD j 0 := by
  rw [List.getD_append_right _ _ _ _ (Nat.le_add_right _ _)]
  simp

theorem getD_at {s pre X : List Nat} {p : Nat} (j : Nat) (hs : s = pre ++ X)
    (hp : p = pre.length + j) : s.getD p 0 = X.getD j 0 := by
  subst hs hp
  exact getD_append_add pre X j

theorem drop_at {s pre X : List Nat} {p : Nat} (hs : s = pre ++ X)
    (hp : p = pre.length) : s.drop p = X := by
  subst hs hp
  exact List.drop_left pre X

/-! ### Characterization of `decodeASN1Int` -/

theorem beVal_eq_zero {l : List Nat} (h : ∀ b ∈ l, b = 0) : beVal l = 0 := by
  induction l using List.reverseRecOn with
  | nil => rfl
  | append_singleton l b ih =>
    rw [beVal_append_singleton, ih (fun x hx => h x (by simp [hx])), h b (by simp)]

theorem sext8_split {b : Nat} (hb : b < 256) :
    sext8 b = b + (TWO64 - 256) * (if 128 ≤ b then 1 else 0) := by
  unfold sext8
  by_cases h : b < 128
  · rw [if_pos (and128_eq_zero h), if_neg (by omega)]
    simp
  · have h0 : ¬ b &&& 0x80 = 0 := by
      have := (byte_and_lemmas b hb).1
      omega
    rw [if_neg h0, if_pos (by omega)]
    have : (256 : Nat) ≤ TWO64 := by norm_num [TWO64]
    omega

theorem decode_foldl_general (g : Nat → Nat) (l : List Nat)
    (h256 : ∀ b ∈ l, b < 256) (hlen : l.length ≤ 8)
    (hg : ∀ j, j < l.length → g j = l.getD j 0) :
    (List.range l.length).foldl (fun acc i => (acc * 256 % TWO64 + sext8 (g i)) % TWO64) 0
      = (beVal l + (TWO64 - 256) * beVal (l.map (fun b => if 128 ≤ b then 1 else 0))) % TWO64 := by
  induction l using List.reverseRecOn with
  | nil => simp [beVal]
  | append_singleton l b ih =>
    have hlen' : l.length ≤ 8 := by simp at hlen; omega
    have h256' : ∀ x ∈ l, x < 256 := fun x hx => h256 x (by simp [hx])
    have hb : b < 256 := h256 b (by simp)
    have hg' : ∀ j, j < l.length → g j = l.getD j 0 := by
      intro j hj
      rw [hg j (by simp; omega), List.getD_append _ _ _ _ hj]
    have hgn : g l.length = b := by
      rw [hg l.length (by simp), List.getD_append_right _ _ _ _ (le_refl _)]
      simp
    rw [List.length_append, List.length_singleton, List.range_succ, List.foldl_append,
      ih h256' hlen' hg']
    simp only [List.foldl_cons, List.foldl_nil, hgn]
    rw [beVal_append_singleton, List.map_append, List.map_singleton,
      beVal_append_singleton, sext8_split hb]
    set T := TWO64 with hT
    set C := T - 256 with hC
    set X := beVal l + C * beVal (l.map (fun b => if 128 ≤ b then 1 else 0)) with hX
    set y := b + C * (if 128 ≤ b then 1 else 0) with hy
    have h1 : X % T * 256 ≡ X * 256 [MOD T] := (Nat.mod_modEq X T).mul_right 256
    have h2 : X % T * 256 + y ≡ X * 256 + y [MOD T] := h1.add_right y
    calc (X % T * 256 % T + y) % T = (X % T * 256 + y) % T := by rw [Nat.mod_add_mod]
      _ = (X * 256 + y) % T := h2
      _ = ((beVal l * 256 + b) + C * (beVal (l.map (fun b => if 128 ≤ b then 1 else 0)) * 256
            + (if 128 ≤ b then 1 else 0))) % T := by ring_nf
      _ = _ := rfl

theorem decode_encode_at {v : Nat} {pre rest s : List Nat} {p e : Nat}
    (hv : v < TWO64) (hg : goodEnc v)
    (hs : s = pre ++ (encodeASN1Int v ++ rest)) (hp : p = pre.length)
    (he : pre.length + (encodeASN1Int v).length ≤ e) :
    decodeASN1Int s p e = (v, (encodeASN1Int v).length) := by
  subst hs
  subst hp
  by_cases h128 : v < 128
  · have henc : encodeASN1Int v = [v] := encode_eq_of_lt h128
    rw [henc]
    have hb : (pre ++ ([v] ++ rest)).getD pre.length 0 = v := by
      have h0 := getD_append_add pre ([v] ++ rest) 0
      simpa using h0
    simp only [decodeASN1Int, hb, and128_eq_zero h128]
    simp
  · have h128' : 128 ≤ v := le_of_not_lt h128
    have henc := encode_eq_of_ge h128' hv
    have hn1 : 1 ≤ (natBE v).length := natBE_pos_length (by omega)
    have hn8 : (natBE v).length ≤ 8 := natBE_length_le (by rw [pow256_8]; exact hv)
    have hlen : (encodeASN1Int v).length = (natBE v).length + 1 := by
      rw [henc]
      simp
    have hhdr := hdr_or_lemmas (natBE v).length (by omega)
    have hb : (pre ++ (encodeASN1Int v ++ rest)).getD pre.length 0
        = (natBE v).length ||| 0x80 := by
      have h0 := getD_append_add pre (encodeASN1Int v ++ rest) 0
      simp only [Nat.add_zero] at h0
      rw [h0, henc]
      simp
    have hshape : pre ++ (encodeASN1Int v ++ rest)
        = (pre ++ [(natBE v).length ||| 0x80]) ++ (natBE v ++ rest) := by
      rw [henc]
      simp
    have hcontent : ∀ j, j < (natBE v).length →
        (pre ++ (encodeASN1Int v ++ rest)).getD (pre.length + 1 + j) 0
          = (natBE v).getD j 0 := by
      intro j hj
      rw [hshape]
      have h0 := getD_append_add (pre ++ [(natBE v).length ||| 0x80]) (natBE v ++ rest) j
      have hL : (pre ++ [(natBE v).length ||| 0x80]).length = pre.length + 1 := by simp
      rw [hL] at h0
      rw [h0, List.getD_append _ _ _ _ hj]
    have hfold := decode_foldl_general
      (fun i => (pre ++ (encodeASN1Int v ++ rest)).getD (pre.length + 1 + i) 0)
      (natBE v) natBE_bytes_lt hn8 hcontent
    have hz : beVal ((natBE v).map (fun b => if 128 ≤ b then 1 else 0)) = 0 := by
      apply beVal_eq_zero
      intro x hx
      rcases List.mem_map.mp hx with ⟨b, hb1, hb2⟩
      have := hg b hb1
      rw [← hb2, if_neg (by omega)]
    rw [hz] at hfold
    have hvv : beVal (natBE v) + (TWO64 - 256) * 0 = v := by
      rw [beVal_natBE]
      omega
    rw [hvv, Nat.mod_eq_of_lt hv] at hfold
    have he' : pre.length + (natBE v).length + 1 ≤ e := by omega
    simp only [decodeASN1Int, hb, hhdr.1, hhdr.2.1]
    rw [if_neg (by norm_num), if_neg (by omega), hfold, hlen]

theorem getD_drop_take {s : List Nat} {k n j : Nat} (hj : j < n) :
    ((s.drop k).take n).getD j 0 = s.getD (k + j) 0 := by
  rw [List.getD_eq_getElem?_getD, List.getD_eq_getElem?_getD, List.getElem?_take,
    if_pos hj, List.getElem?_drop]

theorem length_drop_take {s : List Nat} {k n : Nat} (h : k + n ≤ s.length) :
    ((s.drop k).take n).length = n := by
  simp only [List.length_take, List.length_drop]
  omega

/-- C8 (amended): with first byte `b` and bound `e`, a clear high bit yields
value `b` with 1 byte consumed; otherwise, with `n` the low seven bits of
`b`, the call fails (result 0, consumed 0) when `n > 8` or `start + n > e`,
and otherwise consumes `n + 1` bytes and yields, modulo `2^64`, the
big-endian value of the next `n` bytes in which every byte with its high bit
set is additionally sign-extended (it contributes `2^64 - 256` extra at its
place), because the bytes are accumulated through a signed `char`.  The
original claim's unsigned big-endian value is returned only when all content
bytes are below `0x80`, and the failure guard is strict: `start + n = e` is
accepted and reads the byte at position `e`. -/
theorem decode_characterization (s : List Nat) (start e b n : Nat)
    (hbytes : ∀ x ∈ s, x < 256)
    (hb : s.getD start 0 = b) (hbyte : b < 256) (hn : n = b % 128) :
    (b < 128 → decodeASN1Int s start e = (b, 1)) ∧
    (128 ≤ b → (8 < n ∨ e < start + n) → decodeASN1Int s start e = (0, 0)) ∧
    (128 ≤ b → n ≤ 8 → start + n ≤ e → start + n < s.length →
      decodeASN1Int s start e =
        ((beVal ((s.drop (start + 1)).take n)
            + (TWO64 - 256) * beVal (((s.drop (start + 1)).take n).map
                (fun x => if 128 ≤ x then 1 else 0))) % TWO64,
         n + 1)) := by
  have hand := byte_and_lemmas b hbyte
  refine ⟨?_, ?_, ?_⟩
  · intro h128
    simp only [decodeASN1Int, hb, and128_eq_zero h128]
    simp
  · intro h128 hguard
    have h0 : ¬ b &&& 0x80 = 0 := by
      have := hand.1
      omega
    simp only [decodeASN1Int, hb, hand.2, ← hn]
    rw [if_neg h0, if_pos hguard]
  · intro h128 hn8 he hrange
    have h0 : ¬ b &&& 0x80 = 0 := by
      have := hand.1
      omega
    have hlenl : ((s.drop (start + 1)).take n).length = n :=
      length_drop_take (by omega)
    have h256 : ∀ x ∈ (s.drop (start + 1)).take n, x < 256 := by
      intro x hx
      exact hbytes x (List.drop_subset _ _ (List.take_subset _ _ hx))
    have hg : ∀ j, j < ((s.drop (start + 1)).take n).length →
        s.getD (start + 1 + j) 0 = ((s.drop (start + 1)).take n).getD j 0 := by
      intro j hj
      rw [hlenl] at hj
      rw [getD_drop_take hj]
    have hfold := decode_foldl_general
      (fun i => s.getD (start + 1 + i) 0) ((s.drop (start + 1)).take n)
      h256 (by omega) hg
    simp only [decodeASN1Int, hb, hand.2, ← hn]
    rw [hlenl] at hfold
    rw [if_neg h0, if_neg (by omega), hfold]

/-- C8 (counterexample): decoding the long-form field `81 FF` within bounds
does not yield the big-endian unsigned value 255 of its content byte; the
byte is sign-extended instead. -/
theorem c8_counterexample : decodeASN1Int [0x81, 0xFF] 0 2 ≠ (beVal [0xFF], 2) := by
  decide

/-- Witness for C8's amended theorem at the concrete field `82 01 90`:
the content bytes `01 90` hold the big-endian value 400, but `0x90` is
sign-extended, so the decode yields 144. -/
theorem c8_witness : decodeASN1Int [0x82, 0x01, 0x90] 0 3 = (144, 3) := by
  have h := (decode_characterization [0x82, 0x01, 0x90] 0 3 0x82 2 (by decide)
    (by decide) (by decide) (by decide)).2.2 (by decide) (by decide) (by decide) (by decide)
  rw [h]
  decide

theorem natBE_head_ne {v : Nat} (hv : v ≠ 0) : (natBE v).getD 0 0 ≠ 0 := by
  induction v using Nat.strong_induction_on with
  | _ v ih =>
    rw [natBE_pos hv]
    by_cases h : v / 256 = 0
    · have hvlt : v < 256 := by
        by_contra hge
        have : 1 ≤ v / 256 :=
          (Nat.one_le_div_iff (by norm_num)).mpr (by omega)
        omega
      rw [h, natBE_zero]
      simpa [Nat.mod_eq_of_lt hvlt] using hv
    · have hne : natBE (v / 256) ≠ [] := fun hh => h (natBE_eq_nil_iff.mp hh)
      have hlen : 0 < (natBE (v / 256)).length := List.length_pos.mpr hne
      rw [List.getD_append _ _ _ _ hlen]
      exact ih (v / 256) (Nat.div_lt_self (Nat.pos_of_ne_zero hv) (by norm_num)) h

/-- C9 (counterexample): `EncodeASN1Int(128)` is `81 80` as the claim's
encode clause describes, but `DecodeASN1Int` applied to it does not yield
`(128, 2)`: the content byte `0x80` is sign-extended. -/
theorem c9_counterexample :
    encodeASN1Int 128 = [0x81, 0x80] ∧
    decodeASN1Int (encodeASN1Int 128) 0 2 ≠ (128, 2) := by
  decide

/-- C9 (amended): for every `v < 2^64`, `EncodeASN1Int(v)` is the single
byte `v` when `v < 128`, and otherwise the header `0x80 | n` followed by the
minimal big-endian representation of `v` in `n` bytes (`1 ≤ n ≤ 8`, value
`v`, leading byte nonzero).  `DecodeASN1Int` inverts it — yielding exactly
`v` and consuming exactly the encoding's length — provided every content
byte of that representation is below `0x80`; bytes `≥ 0x80` are sign-
extended by the decoder, so round-tripping fails there (see the
counterexample). -/
theorem c9_encode_decode (v : Nat) (hv : v < TWO64) :
    (v < 128 → encodeASN1Int v = [v]) ∧
    (128 ≤ v →
      encodeASN1Int v = ((natBE v).length ||| 0x80) :: natBE v ∧
      1 ≤ (natBE v).length ∧ (natBE v).length ≤ 8 ∧
      beVal (natBE v) = v ∧ (natBE v).getD 0 0 ≠ 0) ∧
    (goodEnc v → ∀ rest : List Nat, ∀ e : Nat,
      (encodeASN1Int v).length ≤ e →
      decodeASN1Int (encodeASN1Int v ++ rest) 0 e = (v, (encodeASN1Int v).length)) := by
  refine ⟨fun h => encode_eq_of_lt h, ?_, ?_⟩
  · intro h
    exact ⟨encode_eq_of_ge h hv, natBE_pos_length (by omega),
      natBE_length_le (by rw [pow256_8]; exact hv), beVal_natBE v,
      natBE_head_ne (by omega)⟩
  · intro hg rest e he
    exact decode_encode_at hv hg
      (show encodeASN1Int v ++ rest = [] ++ (encodeASN1Int v ++ rest) from
        (List.nil_append _).symm)
      (show (0 : Nat) = ([] : List Nat).length from rfl)
      (by simpa using he)

/-- Witness for C9's amended theorem at `v = 300`: the two content bytes
`01 2C` are below `0x80`, so the decode returns `(300, 3)`. -/
theorem c9_witness : decodeASN1Int (encodeASN1Int 300 ++ [7]) 0 3 = (300, 3) := by
  have h := (c9_encode_decode 300 (by norm_num [TWO64])).2.2 (by decide) [7] 3 (by decide)
  rw [h]
  decide

/-! ### Cache behavior -/

/-- C4: after `insert(k, v)` stamped at time `t`, a lookup of `k` at time
`now` with `now - t ≤ TTL` returns `v` (and leaves the cache as inserted),
and a lookup with `now > t + TTL` reports a miss and removes the entry. -/
theorem c4_cache_ttl (c : Cache) (k : CacheKey) (v : List Nat) (t ttl now : Int) :
    (now - t ≤ ttl →
      cacheLookup (cacheInsert c k ⟨v, t⟩) ttl now k
        = (cacheInsert c k ⟨v, t⟩, some v)) ∧
    (t + ttl < now →
      cacheLookup (cacheInsert c k ⟨v, t⟩) ttl now k = (cacheErase c k, none) ∧
      (cacheFind c k = none → cacheFind (cacheErase c k) k = none)) := by
  have hfind : cacheFind (cacheInsert c k ⟨v, t⟩) k = some ⟨v, t⟩ := by
    unfold cacheFind cacheInsert
    rw [List.find?_cons_of_pos _ (by simp)]
    rfl
  have herase : cacheErase (cacheInsert c k ⟨v, t⟩) k = cacheErase c k := by
    unfold cacheErase cacheInsert
    rw [List.eraseP_cons_of_pos (by simp)]
    rfl
  constructor
  · intro hfresh
    simp only [cacheLookup, hfind]
    rw [if_neg (by omega)]
  · intro hstale
    refine ⟨?_, ?_⟩
    · simp only [cacheLookup, hfind]
      rw [if_pos (by omega), herase]
    · intro hnone
      have h0 : c.find? (fun e => decide (e.1 = k)) = none := by
        cases hf : c.find? (fun e => decide (e.1 = k)) with
        | none => rfl
        | some w =>
          unfold cacheFind at hnone
          rw [hf] at hnone
          simp at hnone
      unfold cacheFind cacheErase
      rw [List.eraseP_of_forall_not (List.find?_eq_none.mp h0), h0]
      rfl

/-- Witness for C4 at a concrete key, both in the fresh and the stale case. -/
theorem c4_witness :
    cacheLookup (cacheInsert [] ⟨[98], [97], [], 0xA0, [7]⟩ ⟨[9], 0⟩) 300 100
        ⟨[98], [97], [], 0xA0, [7]⟩
      = (cacheInsert [] ⟨[98], [97], [], 0xA0, [7]⟩ ⟨[9], 0⟩, some [9]) ∧
    cacheLookup (cacheInsert [] ⟨[98], [97], [], 0xA0, [7]⟩ ⟨[9], 0⟩) 300 301
        ⟨[98], [97], [], 0xA0, [7]⟩
      = (cacheErase [] ⟨[98], [97], [], 0xA0, [7]⟩, none) :=
  ⟨(c4_cache_ttl [] ⟨[98], [97], [], 0xA0, [7]⟩ [9] 0 300 100).1 (by norm_num),
   ((c4_cache_ttl [] ⟨[98], [97], [], 0xA0, [7]⟩ [9] 0 300 301).2 (by norm_num)).1⟩

/-! ### The backend retry loop -/

theorem backendLoop_all_none (R : Nat) (oracle : Nat → Option (List Nat))
    (h : ∀ i, i ≤ R → oracle i = none) :
    ∀ fuel s, s + fuel = R + 1 → backendLoop R oracle s fuel = (R + 1, none) := by
  intro fuel
  induction fuel with
  | zero =>
    intro s hs
    have hsR : s = R + 1 := by omega
    subst hsR
    rfl
  | succ fuel ih =>
    intro s hs
    have hos : oracle s = none := h s (by omega)
    simp only [backendLoop, hos]
    by_cases hc : s + 1 ≤ R
    · rw [if_pos ⟨hc, trivial⟩]
      exact ih (s + 1) (by omega)
    · rw [if_neg (by simp [hc])]
      have hs1 : s + 1 = R + 1 := by omega
      rw [hs1]

theorem backendLoop_first_reply (R : Nat) (oracle : Nat → Option (List Nat))
    (j : Nat) (b : List Nat) (hj : j ≤ R) (hb : oracle j = some b)
    (hfirst : ∀ i, i < j → oracle i = none) :
    ∀ fuel s, s ≤ j → j < s + fuel → backendLoop R oracle s fuel = (j + 1, some b) := by
  intro fuel
  induction fuel with
  | zero =>
    intro s h1 h2
    omega
  | succ fuel ih =>
    intro s h1 h2
    by_cases hsj : s = j
    · subst hsj
      simp only [backendLoop, hb]
      rw [if_neg (by simp)]
    · have hos : oracle s = none := hfirst s (by omega)
      simp only [backendLoop, hos]
      rw [if_pos ⟨by omega, trivial⟩]
      exact ih (s + 1) (by omega) (by omega)

/-! ### GetResponse error paths -/

/-- C5: with a cache miss and no backend reply on any attempt, `GetResponse`
performs exactly `1 + num_backend_retries` send attempts and returns the
serialization of a clone of the request whose community is `backend_host`,
whose PDU type is GetResponse (0xA2) and whose data is the request's data
with byte 2 replaced by 0x0D; that data is inserted into the cache under the
request's key. -/
theorem c5_backend_timeout (R : Nat) (ttl now : Int) (cache : Cache)
    (bh : List Nat) (req : SNMPSequence) (oracle : Nat → Option (List Nat))
    (hmiss : (cacheLookup cache ttl now (mkCacheKey bh req)).2 = none)
    (hnone : ∀ i, i ≤ R → oracle i = none)
    (hdata : 2 < req.data.length) :
    ∃ m' : SNMPSequence,
      getResponse R ttl now cache bh req oracle =
        (serialize m',
         cacheInsert (cacheLookup cache ttl now (mkCacheKey bh req)).1
           (mkCacheKey bh req) { response_data := req.data.set 2 13, time := now },
         R + 1) ∧
      m'.community = bh ∧ m'.pdu_type = 0xA2 ∧
      m'.data = req.data.set 2 13 ∧ m'.request_id = req.request_id := by
  have hloop := backendLoop_all_none R oracle hnone (R + 1) 0 (by omega)
  refine ⟨set_community bh (set_error 13 (set_pdu_type 0xA2 (set_community bh req))),
    ?_, by simp [set_community], by simp [set_community, set_error, set_pdu_type],
    by simp [set_community, set_error, set_pdu_type],
    by simp [set_community, set_error, set_pdu_type]⟩
  simp only [getResponse, hmiss, hloop]
  simp [set_community, set_error, set_pdu_type]

/-- Witness for C5: concrete request, empty cache, silent backend. -/
theorem c5_witness :
    ∃ m' : SNMPSequence,
      getResponse 2 300 0 [] [98] sampleMsg (fun _ => none) =
        (serialize m',
         cacheInsert (cacheLookup [] 300 0 (mkCacheKey [98] sampleMsg)).1
           (mkCacheKey [98] sampleMsg)
           { response_data := sampleMsg.data.set 2 13, time := 0 },
         3) ∧
      m'.community = [98] ∧ m'.pdu_type = 0xA2 ∧
      m'.data = sampleMsg.data.set 2 13 ∧ m'.request_id = sampleMsg.request_id :=
  c5_backend_timeout 2 300 0 [] [98] sampleMsg (fun _ => none)
    (by decide) (fun _ _ => rfl) (by decide)

/-- C6 (corrected): when the backend's reply fails to parse AND is outside
the `parseAborts` family — the claim as stated is false on that family,
where the `SNMPSequence` constructor throws an uncaught `std::length_error`
from `std::string::assign` and the process terminates instead of returning
anything (see `c6_counterexample`) — `GetResponse` returns the reply bytes
unchanged and performs no cache insertion: the final cache is the one
produced by the initial lookup, which is the original cache or, at most,
the original cache with the stale entry for the key evicted. -/
theorem c6_unparseable_reply (R : Nat) (ttl now : Int) (cache : Cache)
    (bh : List Nat) (req : SNMPSequence) (oracle : Nat → Option (List Nat))
    (j : Nat) (b : List Nat)
    (hmiss : (cacheLookup cache ttl now (mkCacheKey bh req)).2 = none)
    (hj : j ≤ R) (hb : oracle j = some b) (hfirst : ∀ i, i < j → oracle i = none)
    (hparse : parseSNMP b = none) (hsafe : ¬ parseAborts b) :
    getResponse R ttl now cache bh req oracle
      = (b, (cacheLookup cache ttl now (mkCacheKey bh req)).1, j + 1) ∧
    ((cacheLookup cache ttl now (mkCacheKey bh req)).1 = cache ∨
     (cacheLookup cache ttl now (mkCacheKey bh req)).1
       = cacheErase cache (mkCacheKey bh req)) := by
  have hloop := backendLoop_first_reply R oracle j b hj hb hfirst (R + 1) 0
    (by omega) (by omega)
  constructor
  · simp only [getResponse, hmiss, hloop, hparse]
  · unfold cacheLookup
    cases hf : cacheFind cache (mkCacheKey bh req) with
    | none => simp
    | some w =>
      simp only []
      by_cases hst : now > w.time + ttl
      · rw [if_pos hst]
        right
        rfl
      · rw [if_neg hst]
        left
        rfl

/-- Witness for C6: the backend replies with two bytes of non-SNMP data —
a non-aborting parse failure — which are forwarded verbatim; the empty
cache stays empty. -/
theorem c6_witness :
    getResponse 2 300 0 [] [98] sampleMsg (fun _ => some [9, 9])
      = ([9, 9], (cacheLookup [] 300 0 (mkCacheKey [98] sampleMsg)).1, 1) ∧
    ((cacheLookup [] 300 0 (mkCacheKey [98] sampleMsg)).1 = [] ∨
     (cacheLookup [] 300 0 (mkCacheKey [98] sampleMsg)).1
       = cacheErase [] (mkCacheKey [98] sampleMsg)) :=
  c6_unparseable_reply 2 300 0 [] [98] sampleMsg (fun _ => some [9, 9]) 0 [9, 9]
    (by decide) (by omega) rfl (fun i hi => absurd hi (by omega)) (by decide)
    (by decide)

/-- Counterexample for C6: a 13-byte backend reply that passes every
constructor check — `30 13` (sequence, length 0x13), version `02 01 01`,
community `04 01 62`, PDU `A2 05`, request-id tags `02 04` with first byte
`62` — yet ends 3 bytes before the data offset (`pData = 16 > 13`). The
constructor computes `end - start = -3` at `data_.assign`, the count becomes
a near-`2^64` `size_t`, `assign` throws `std::length_error`, and the process
terminates: the reply is not returned verbatim, refuting the claim as
stated. -/
theorem c6_counterexample :
    parseSNMP [0x30, 0x13, 2, 1, 1, 4, 1, 0x62, 0xA2, 5, 2, 4, 0x62] = none ∧
    parseAborts [0x30, 0x13, 2, 1, 1, 4, 1, 0x62, 0xA2, 5, 2, 4, 0x62] := by
  constructor
  · decide
  · decide

/-! ### The front-end drop rule -/

/-- C10 (corrected): a datagram that fails to parse without landing in the
`parseAborts` family — on that family the claim as stated is false: the
`SNMPSequence` constructor throws an uncaught `std::length_error` from
`std::string::assign` and the process terminates instead of dropping the
datagram (see `c10_counterexample`) — or that parses with a PDU type other
than GetRequest, GetNextRequest or GetBulkRequest, produces no response,
leaves the cache unchanged, and causes no backend traffic. -/
theorem c10_silent_drop (R : Nat) (ttl now : Int) (bc : List Nat) (cache : Cache)
    (packet : List Nat) (oracle : Nat → Option (List Nat))
    (h : (parseSNMP packet = none ∧ ¬ parseAborts packet) ∨
         ∃ m, parseSNMP packet = some m ∧
           ¬(m.pdu_type = 0xA0 ∨ m.pdu_type = 0xA1 ∨ m.pdu_type = 0xA5)) :
    frontEndStep R ttl now bc cache packet oracle = (none, cache, 0) := by
  rcases h with ⟨h, _⟩ | ⟨m, hm, hpt⟩
  · simp [frontEndStep, h]
  · simp [frontEndStep, hm, hpt]

/-- Witness for C10: four bytes of garbage (a non-aborting parse failure)
are dropped, and a well-formed GetResponse arriving on the listening socket
is dropped as well. -/
theorem c10_witness :
    frontEndStep 2 300 0 [98] [] [1, 2, 3, 4] (fun _ => none) = (none, [], 0) ∧
    frontEndStep 2 300 0 [98]
        [] [0x30, 17, 2, 1, 1, 4, 1, 97, 0xA2, 9, 2, 4, 0, 0, 0, 0, 7, 8, 9]
        (fun _ => none) = (none, [], 0) :=
  ⟨c10_silent_drop 2 300 0 [98] [] [1, 2, 3, 4] (fun _ => none)
     (Or.inl ⟨by decide, by decide⟩),
   c10_silent_drop 2 300 0 [98] []
     [0x30, 17, 2, 1, 1, 4, 1, 97, 0xA2, 9, 2, 4, 0, 0, 0, 0, 7, 8, 9] (fun _ => none)
     (Or.inr ⟨⟨17, [97], [], 0xA2, 9, [0, 0, 0, 0], [7, 8, 9]⟩, by decide, by decide⟩)⟩

/-- Counterexample for C10: a 13-byte datagram to the listening socket that
passes every constructor check — `30 13`, version `02 01 01`, community
`04 01 61`, PDU `A0 05` (GetRequest), request-id tags `02 04` with first
byte `61` — yet ends 3 bytes before the data offset (`pData = 16 > 13`).
The constructor computes `end - start = -3` at `data_.assign`, `assign`
throws `std::length_error`, and the process terminates: the datagram is not
silently ignored, refuting the claim as stated. -/
theorem c10_counterexample :
    parseSNMP [0x30, 0x13, 2, 1, 1, 4, 1, 0x61, 0xA0, 5, 2, 4, 0x61] = none ∧
    parseAborts [0x30, 0x13, 2, 1, 1, 4, 1, 0x61, 0xA0, 5, 2, 4, 0x61] := by
  constructor
  · decide
  · decide

/-! ### The length-maintenance invariant (C2) -/

theorem set_community_exact (m : SNMPSequence) (c : List Nat)
    (hinv : lengthInvariant m) (hc : c.length < 2 ^ 60) :
    set_community c m
      = { m with
          length := 11 + (encodeASN1Int c.length).length + c.length
                    + (encodeASN1Int m.pdu_length).length + m.data.length,
          community := c } := by
  obtain ⟨hrid, hpl, hlen, hclb, hdlb⟩ := hinv
  have he1 := encode_length_pos m.community.length
  have he9 := encode_length_le m.community.length
  have hp9 := encode_length_le m.pdu_length
  have hc1 := encode_length_pos c.length
  have hc9 := encode_length_le c.length
  have hT : TWO64 = 18446744073709551616 := by norm_num [TWO64]
  have h60 : (2 : Nat) ^ 60 = 1152921504606846976 := by norm_num
  have hL : m.length < TWO64 := by omega
  have harith : add64 (sub64 m.length
        (m.community.length + (encodeASN1Int m.community.length).length - 1))
        (c.length + (encodeASN1Int c.length).length - 1)
      = 11 + (encodeASN1Int c.length).length + c.length
        + (encodeASN1Int m.pdu_length).length + m.data.length := by
    rw [sub64_exact (by omega) hL, add64_exact (by omega)]
    omega
  simp only [set_community]
  rw [harith]

theorem set_data_exact (m : SNMPSequence) (d : List Nat)
    (hinv : lengthInvariant m) (hd : d.length < 2 ^ 60) :
    set_data d m
      = { m with
          length := 11 + (encodeASN1Int m.community.length).length + m.community.length
                    + (encodeASN1Int (6 + d.length)).length + d.length,
          pdu_length := 6 + d.length,
          data := d } := by
  obtain ⟨hrid, hpl, hlen, hclb, hdlb⟩ := hinv
  have he9 := encode_length_le m.community.length
  have hp1 := encode_length_pos m.pdu_length
  have hp9 := encode_length_le m.pdu_length
  have hq1 := encode_length_pos (6 + d.length)
  have hq9 := encode_length_le (6 + d.length)
  have hT : TWO64 = 18446744073709551616 := by norm_num [TWO64]
  have h60 : (2 : Nat) ^ 60 = 1152921504606846976 := by norm_num
  have hL : m.length < TWO64 := by omega
  have hplnew : add64 (sub64 m.pdu_length m.data.length) d.length = 6 + d.length := by
    rw [sub64_exact (by omega) (by omega), add64_exact (by omega)]
    omega
  have hinner : add64 (sub64 m.length
        (m.data.length + (encodeASN1Int m.pdu_length).length - 1)) d.length
      = 12 + (encodeASN1Int m.community.length).length + m.community.length
        + d.length := by
    rw [sub64_exact (by omega) hL, add64_exact (by omega)]
    omega
  have harith : add64 (add64 (sub64 m.length
        (m.data.length + (encodeASN1Int m.pdu_length).length - 1)) d.length)
        ((encodeASN1Int (6 + d.length)).length - 1)
      = 11 + (encodeASN1Int m.community.length).length + m.community.length
        + (encodeASN1Int (6 + d.length)).length + d.length := by
    rw [hinner, add64_exact (by omega)]
    omega
  simp only [set_data]
  rw [hplnew, harith]

/-- C2: for a successfully parsed message satisfying the framing invariant
(`length` and `pdu_length` are exactly the BER lengths re-serialization
needs), the invariant is preserved by `set_community` and by `set_data`;
consequently, after `set_community(c)` the serialized output consists of the
tag `0x30`, the BER encoding of the stored outer length, and exactly that
many further bytes, and after `set_data(d)` both the outer length and the
inner `pdu_length` count exactly the bytes that follow their fields in the
output. -/
theorem c2_length_maintenance (s : List Nat) (m : SNMPSequence) (c d : List Nat)
    (hparse : parseSNMP s = some m) (hinv : lengthInvariant m)
    (hc : c.length < 2 ^ 60) (hd : d.length < 2 ^ 60) :
    (lengthInvariant (set_community c m) ∧
      ∃ t, serialize (set_community c m)
          = 0x30 :: encodeASN1Int (set_community c m).length ++ t ∧
        t.length = (set_community c m).length) ∧
    (lengthInvariant (set_data d m) ∧
      ∃ t u, serialize (set_data d m)
          = 0x30 :: encodeASN1Int (set_data d m).length ++ t ∧
        t.length = (set_data d m).length ∧
        t = [2, 1, 1, 4] ++ encodeASN1Int m.community.length ++ m.community
            ++ m.pdu_type :: encodeASN1Int (set_data d m).pdu_length ++ u ∧
        u.length = (set_data d m).pdu_length) := by
  obtain ⟨hrid, hpl, hlen, hclb, hdlb⟩ := hinv
  have hmc := set_community_exact m c ⟨hrid, hpl, hlen, hclb, hdlb⟩ hc
  have hmd := set_data_exact m d ⟨hrid, hpl, hlen, hclb, hdlb⟩ hd
  constructor
  · constructor
    · rw [hmc]
      exact ⟨hrid, hpl, rfl, hc, hdlb⟩
    · refine ⟨[2, 1, 1] ++ [4] ++ encodeASN1Int c.length ++ c
        ++ m.pdu_type :: encodeASN1Int m.pdu_length ++ [2, 4]
        ++ m.request_id ++ m.data, ?_, ?_⟩
      · rw [hmc]
        simp [serialize]
      · rw [hmc]
        simp [List.length_append]
        omega
  · constructor
    · rw [hmd]
      exact ⟨hrid, rfl, rfl, hclb, hd⟩
    · refine ⟨[2, 1, 1] ++ [4] ++ encodeASN1Int m.community.length ++ m.community
        ++ m.pdu_type :: encodeASN1Int (6 + d.length) ++ [2, 4]
        ++ m.request_id ++ d,
        [2, 4] ++ m.request_id ++ d, ?_, ?_, ?_, ?_⟩
      · rw [hmd]
        simp [serialize]
      · rw [hmd]
        simp [List.length_append]
        omega
      · rw [hmd]
        simp
      · rw [hmd]
        simp [List.length_append]
        omega

/-- Witness for C2: the mutators preserve the invariant on a concrete parsed
message. -/
theorem c2_witness :
    lengthInvariant (set_community [98, 99] sampleMsg) ∧
    lengthInvariant (set_data [1, 2, 3, 4] sampleMsg) :=
  ⟨(c2_length_maintenance sampleBytes sampleMsg [98, 99] [1, 2, 3, 4]
      (by decide) (by decide) (by decide) (by decide)).1.1,
   (c2_length_maintenance sampleBytes sampleMsg [98, 99] [1, 2, 3, 4]
      (by decide) (by decide) (by decide) (by decide)).2.1⟩

/-! ### Parsing a canonically framed message -/

theorem findIdx_eq_length_of_ne {l : List Nat} (h : ∀ b ∈ l, b ≠ 64) :
    l.findIdx (fun b => b == 64) = l.length := by
  induction l with
  | nil => rfl
  | cons a l ih =>
    rw [List.findIdx_cons]
    have ha : (a == 64) = false := by
      simp only [beq_eq_false_iff_ne, ne_eq]
      exact h a (by simp)
    rw [ha]
    simp only [cond_false, List.length_cons]
    rw [ih (fun b hb => h b (by simp [hb]))]

/-- Every byte string assembled from a nonzero outer length, the version
triple, a nonempty community (no `@`), a recognized PDU tag, a PDU length, a
4-byte request id and trailing data — with all three length fields written by
`EncodeASN1Int` and decodable without sign extension — parses successfully
into exactly those fields. -/
theorem parse_shape (lv pl pt : Nat) (comm rid data : List Nat)
    (hlv0 : lv ≠ 0) (hlv : lv < TWO64) (hglv : goodEnc lv)
    (hpl64 : pl < TWO64) (hgpl : goodEnc pl)
    (hcl64 : comm.length < TWO64) (hgcl : goodEnc comm.length)
    (hcomm : comm ≠ []) (hat : ∀ b ∈ comm, b ≠ 64)
    (hrid : rid.length = 4)
    (hpt : pt = 0xA0 ∨ pt = 0xA1 ∨ pt = 0xA2 ∨ pt = 0xA5) :
    parseSNMP (0x30 :: encodeASN1Int lv ++ [2, 1, 1, 4] ++ encodeASN1Int comm.length
        ++ comm ++ pt :: encodeASN1Int pl ++ [2, 4] ++ rid ++ data)
      = some { length := lv, community := comm, community_index := [],
               pdu_type := pt, pdu_length := pl, request_id := rid, data := data } := by
  set S := 0x30 :: encodeASN1Int lv ++ [2, 1, 1, 4] ++ encodeASN1Int comm.length
      ++ comm ++ pt :: encodeASN1Int pl ++ [2, 4] ++ rid ++ data with hSdef
  have ha1 := encode_length_pos lv
  have ha9 := encode_length_le lv
  have hb1 := encode_length_pos comm.length
  have hb9 := encode_length_le comm.length
  have hc1 := encode_length_pos pl
  have hc9 := encode_length_le pl
  have hcomm1 : 1 ≤ comm.length := List.length_pos.mpr hcomm
  have hSlen : S.length = 1 + (encodeASN1Int lv).length + 4
      + (encodeASN1Int comm.length).length + comm.length + 1
      + (encodeASN1Int pl).length + 2 + 4 + data.length := by
    simp [hSdef, List.length_append, hrid]
    omega
  have houter : outerLen S = (lv, (encodeASN1Int lv).length) := by
    unfold outerLen
    exact decode_encode_at hlv hglv
      (show S = [0x30] ++ (encodeASN1Int lv ++ ([2, 1, 1, 4]
          ++ encodeASN1Int comm.length ++ comm ++ pt :: encodeASN1Int pl
          ++ [2, 4] ++ rid ++ data)) by simp [hSdef])
      (by simp) (by simp only [List.length_singleton]; omega)
  have houter1 : (outerLen S).1 = lv := by rw [houter]
  have hpVer : pVer S = 1 + (encodeASN1Int lv).length := by
    simp [pVer, houter]
  have hv : ∀ j, j < 4 → S.getD (1 + (encodeASN1Int lv).length + j) 0
      = [2, 1, 1, 4].getD j 0 := by
    intro j hj
    have hs2 : S = (0x30 :: encodeASN1Int lv) ++ ([2, 1, 1, 4]
        ++ (encodeASN1Int comm.length ++ comm ++ pt :: encodeASN1Int pl
            ++ [2, 4] ++ rid ++ data)) := by simp [hSdef]
    have h1 := getD_at j hs2 (show 1 + (encodeASN1Int lv).length + j
        = ((0x30 :: encodeASN1Int lv) : List Nat).length + j by
      simp only [List.length_cons]; omega)
    rw [h1, List.getD_append _ _ _ _ (show j < ([2, 1, 1, 4] : List Nat).length by
      simpa using hj)]
  have hcommLen : commLen S = (comm.length, (encodeASN1Int comm.length).length) := by
    unfold commLen
    refine decode_encode_at hcl64 hgcl
      (show S = ((0x30 :: encodeASN1Int lv) ++ [2, 1, 1, 4])
          ++ (encodeASN1Int comm.length ++ (comm ++ pt :: encodeASN1Int pl
              ++ [2, 4] ++ rid ++ data)) by simp [hSdef]) ?_ ?_
    · show pCommLen S = _
      rw [pCommLen, hpVer]
      simp only [List.length_append, List.length_cons, List.length_nil]
      omega
    · simp only [List.length_append, List.length_cons, List.length_nil]
      omega
  have hcommLen1 : (commLen S).1 = comm.length := by rw [hcommLen]
  have hcommLen2 : (commLen S).2 = (encodeASN1Int comm.length).length := by
    rw [hcommLen]
  have hpComm : pComm S = 5 + (encodeASN1Int lv).length
      + (encodeASN1Int comm.length).length := by
    rw [pComm, pCommLen, hpVer, hcommLen2]
    omega
  have hcommBytes : rawComm S = comm := by
    unfold rawComm
    rw [hcommLen1]
    have hdrop : S.drop (pComm S) = comm ++ (pt :: encodeASN1Int pl
        ++ [2, 4] ++ rid ++ data) :=
      drop_at
        (show S = ((0x30 :: encodeASN1Int lv) ++ [2, 1, 1, 4]
            ++ encodeASN1Int comm.length) ++ (comm ++ (pt :: encodeASN1Int pl
            ++ [2, 4] ++ rid ++ data)) by simp [hSdef])
        (by rw [hpComm]
            simp only [List.length_append, List.length_cons, List.length_nil]
            omega)
    rw [hdrop, List.take_left]
  have hpPdu : pPdu S = 5 + (encodeASN1Int lv).length
      + (encodeASN1Int comm.length).length + comm.length := by
    rw [pPdu, hpComm, hcommLen1]
  have hptv : S.getD (pPdu S) 0 = pt := by
    have h1 := getD_at 0
      (show S = ((0x30 :: encodeASN1Int lv) ++ [2, 1, 1, 4]
          ++ encodeASN1Int comm.length ++ comm) ++ (pt :: (encodeASN1Int pl
          ++ [2, 4] ++ rid ++ data)) by simp [hSdef])
      (show pPdu S = _ + 0 by
        rw [hpPdu]
        simp only [List.length_append, List.length_cons, List.length_nil]
        omega)
    rw [h1]
    rfl
  have hpduLen : pduLen S = (pl, (encodeASN1Int pl).length) := by
    unfold pduLen
    refine decode_encode_at hpl64 hgpl
      (show S = ((0x30 :: encodeASN1Int lv) ++ [2, 1, 1, 4]
          ++ encodeASN1Int comm.length ++ comm ++ [pt])
          ++ (encodeASN1Int pl ++ ([2, 4] ++ rid ++ data)) by simp [hSdef]) ?_ ?_
    · rw [hpPdu]
      simp only [List.length_append, List.length_cons, List.length_nil]
      omega
    · simp only [List.length_append, List.length_cons, List.length_nil]
      omega
  have hpduLen1 : (pduLen S).1 = pl := by rw [hpduLen]
  have hpduLen2 : (pduLen S).2 = (encodeASN1Int pl).length := by rw [hpduLen]
  have hpInt : pInt S = 6 + (encodeASN1Int lv).length
      + (encodeASN1Int comm.length).length + comm.length
      + (encodeASN1Int pl).length := by
    rw [pInt, hpPdu, hpduLen2]
    omega
  have hint : ∀ j, j < 2 → S.getD (pInt S + j) 0 = [2, 4].getD j 0 := by
    intro j hj
    have h1 := getD_at j
      (show S = ((0x30 :: encodeASN1Int lv) ++ [2, 1, 1, 4]
          ++ encodeASN1Int comm.length ++ comm ++ [pt] ++ encodeASN1Int pl)
          ++ ([2, 4] ++ (rid ++ data)) by simp [hSdef])
      (show pInt S + j = _ + j by
        rw [hpInt]
        simp only [List.length_append, List.length_cons, List.length_nil]
        omega)
    rw [h1, List.getD_append _ _ _ _ (show j < ([2, 4] : List Nat).length by
      simpa using hj)]
  have hpRid : pRid S = 8 + (encodeASN1Int lv).length
      + (encodeASN1Int comm.length).length + comm.length
      + (encodeASN1Int pl).length := by
    rw [pRid, hpInt]
    omega
  have hridBytes : (S.drop (pRid S)).take 4 = rid := by
    have hdrop : S.drop (pRid S) = rid ++ data :=
      drop_at
        (show S = ((0x30 :: encodeASN1Int lv) ++ [2, 1, 1, 4]
            ++ encodeASN1Int comm.length ++ comm ++ [pt] ++ encodeASN1Int pl
            ++ [2, 4]) ++ (rid ++ data) by simp [hSdef])
        (by rw [hpRid]
            simp only [List.length_append, List.length_cons, List.length_nil]
            omega)
    rw [hdrop, ← hrid, List.take_left]
  have hpData : pData S = 12 + (encodeASN1Int lv).length
      + (encodeASN1Int comm.length).length + comm.length
      + (encodeASN1Int pl).length := by
    rw [pData, hpRid]
    omega
  have hdataBytes : S.drop (pData S) = data := by
    refine drop_at
      (show S = ((0x30 :: encodeASN1Int lv) ++ [2, 1, 1, 4]
          ++ encodeASN1Int comm.length ++ comm ++ [pt] ++ encodeASN1Int pl
          ++ [2, 4] ++ rid) ++ data by simp [hSdef]) ?_
    rw [hpData]
    simp only [List.length_append, List.length_cons, List.length_nil, hrid]
    omega
  have hfi : atSign S = comm.length := by
    unfold atSign
    rw [hcommBytes]
    exact findIdx_eq_length_of_ne hat
  have hg1 : ¬ (S.length < 7) := by omega
  have hg2 : ¬ (S.getD 0 0 ≠ 0x30) := by simp [hSdef]
  have hg3 : ¬ ((outerLen S).1 = 0) := by
    rw [houter1]
    exact hlv0
  have hg4 : ¬ ¬ (S.getD (pVer S) 0 = 2 ∧ S.getD (pVer S + 1) 0 = 1 ∧
      S.getD (pVer S + 2) 0 = 1) := by
    rw [not_not, hpVer]
    refine ⟨by simpa using hv 0 (by omega), by simpa using hv 1 (by omega),
      by simpa using hv 2 (by omega)⟩
  have hg5 : ¬ (S.getD (pVer S + 3) 0 ≠ 4) := by
    rw [not_not, hpVer]
    simpa using hv 3 (by omega)
  have hg6 : ¬ ((commLen S).1 = 0) := by
    rw [hcommLen1]
    omega
  have hg7 : ¬ (S.length < pComm S + (commLen S).1) := by
    rw [hpComm, hcommLen1]
    omega
  have hg8 : ¬ (S.length < pPdu S + 5) := by
    rw [hpPdu]
    omega
  have hg9 : ¬ ¬ (S.getD (pPdu S) 0 = 0xA0 ∨ S.getD (pPdu S) 0 = 0xA1 ∨
      S.getD (pPdu S) 0 = 0xA2 ∨ S.getD (pPdu S) 0 = 0xA5) := by
    rw [not_not, hptv]
    exact hpt
  have hg10 : ¬ (S.getD (pInt S) 0 ≠ 2) := by
    rw [not_not]
    simpa using hint 0 (by omega)
  have hg11 : ¬ (S.getD (pInt S + 1) 0 ≠ 4) := by
    rw [not_not]
    simpa using hint 1 (by omega)
  have hg12 : ¬ (S.length < pData S) := by
    rw [hpData]
    omega
  rw [parseSNMP, if_neg hg1, if_neg hg2, if_neg hg3, if_neg hg4, if_neg hg5,
    if_neg hg6, if_neg hg7, if_neg hg8, if_neg hg9, if_neg hg10, if_neg hg11,
    if_neg hg12]
  simp only [hptv, hcommBytes, hridBytes, hdataBytes, hpduLen1, houter1, hfi,
    lt_self_iff_false, if_false]

/-! ### C1: parse-then-serialize round trip -/

/-- C1 (counterexample): a fully well-formed v2c GetRequest whose community
contains `@` parses successfully, but re-serializing without any mutation
drops the `@`-suffix and shrinks the length field: the output differs from
the input. -/
theorem c1_counterexample :
    parseSNMP [0x30, 19, 2, 1, 1, 4, 3, 97, 64, 98, 0xA0, 9, 2, 4, 1, 2, 3, 4, 7, 8, 9]
      = some { length := 17, community := [97], community_index := [64, 98],
               pdu_type := 0xA0, pdu_length := 9, request_id := [1, 2, 3, 4],
               data := [7, 8, 9] } ∧
    serialize { length := 17, community := [97], community_index := [64, 98],
                pdu_type := 0xA0, pdu_length := 9, request_id := [1, 2, 3, 4],
                data := [7, 8, 9] }
      ≠ [0x30, 19, 2, 1, 1, 4, 3, 97, 64, 98, 0xA0, 9, 2, 4, 1, 2, 3, 4, 7, 8, 9] := by
  decide

/-- C1 (amended): parsing an untouched well-formed v2c byte string and
immediately serializing reproduces it byte for byte — including both
BER-encoded length fields — provided the community contains no `@` byte and
each length field is the encoder's output for a value whose content bytes
stay below `0x80` (otherwise the `@`-split, a non-minimal length encoding,
or the decoder's sign extension changes the output). -/
theorem c1_roundtrip (lv pl pt : Nat) (comm rid data : List Nat)
    (hlv : lv < TWO64) (hglv : goodEnc lv)
    (hpl64 : pl < TWO64) (hgpl : goodEnc pl)
    (hcl64 : comm.length < TWO64) (hgcl : goodEnc comm.length)
    (hcomm : comm ≠ []) (hat : ∀ b ∈ comm, b ≠ 64)
    (hrid : rid.length = 4)
    (hpt : pt = 0xA0 ∨ pt = 0xA1 ∨ pt = 0xA2 ∨ pt = 0xA5)
    (hlveq : lv = 11 + (encodeASN1Int comm.length).length + comm.length
        + (encodeASN1Int pl).length + data.length)
    (hpleq : pl = 6 + data.length) :
    parseSNMP (0x30 :: encodeASN1Int lv ++ [2, 1, 1, 4] ++ encodeASN1Int comm.length
        ++ comm ++ pt :: encodeASN1Int pl ++ [2, 4] ++ rid ++ data)
      = some { length := lv, community := comm, community_index := [],
               pdu_type := pt, pdu_length := pl, request_id := rid, data := data } ∧
    serialize { length := lv, community := comm, community_index := [],
                pdu_type := pt, pdu_length := pl, request_id := rid, data := data }
      = 0x30 :: encodeASN1Int lv ++ [2, 1, 1, 4] ++ encodeASN1Int comm.length
        ++ comm ++ pt :: encodeASN1Int pl ++ [2, 4] ++ rid ++ data := by
  have hlv0 : lv ≠ 0 := by omega
  exact ⟨parse_shape lv pl pt comm rid data hlv0 hlv hglv hpl64 hgpl hcl64 hgcl
      hcomm hat hrid hpt,
    by simp [serialize]⟩

/-- Witness for C1's amended theorem at a concrete well-formed GetRequest. -/
theorem c1_witness :
    parseSNMP (0x30 :: encodeASN1Int 17 ++ [2, 1, 1, 4]
        ++ encodeASN1Int ([97] : List Nat).length
        ++ [97] ++ 0xA0 :: encodeASN1Int 9 ++ [2, 4]
        ++ [222, 173, 190, 239] ++ [7, 8, 9])
      = some { length := 17, community := [97], community_index := [],
               pdu_type := 0xA0, pdu_length := 9,
               request_id := [222, 173, 190, 239], data := [7, 8, 9] } ∧
    serialize { length := 17, community := [97], community_index := [],
                pdu_type := 0xA0, pdu_length := 9,
                request_id := [222, 173, 190, 239], data := [7, 8, 9] }
      = 0x30 :: encodeASN1Int 17 ++ [2, 1, 1, 4]
        ++ encodeASN1Int ([97] : List Nat).length
        ++ [97] ++ 0xA0 :: encodeASN1Int 9 ++ [2, 4]
        ++ [222, 173, 190, 239] ++ [7, 8, 9] :=
  c1_roundtrip 17 9 0xA0 [97] [222, 173, 190, 239] [7, 8, 9]
    (by decide) (by decide) (by decide) (by decide) (by decide) (by decide)
    (by decide) (by decide) (by decide) (by decide) (by decide) (by decide)

/-! ### C7: set_error can write out of bounds -/

/-- C7: the parser accepts messages whose trailing `data` has any length,
including fewer than 3 bytes (even zero), for every such count; `set_error`
unconditionally writes the byte at index 2 of `data` (modeled by `List.set`
for the in-bounds case), so the `data_[2]` write on the backend-timeout path
is within bounds only when `data` has at least 3 bytes, and for some
successfully parsed GetRequests it is out of bounds. -/
theorem c7_set_error_out_of_bounds :
    (∀ n : Nat, ∃ s m, parseSNMP s = some m ∧ m.pdu_type = 0xA0 ∧
      m.data.length = n) ∧
    (∃ s m, parseSNMP s = some m ∧ m.pdu_type = 0xA0 ∧ ¬ setErrorInBounds m) ∧
    (∀ m : SNMPSequence, (set_error 13 m).data = m.data.set 2 13) := by
  have hshape : ∀ n : Nat,
      parseSNMP (0x30 :: encodeASN1Int 1 ++ [2, 1, 1, 4]
          ++ encodeASN1Int ([97] : List Nat).length
          ++ [97] ++ 0xA0 :: encodeASN1Int 1 ++ [2, 4]
          ++ [0, 0, 0, 0] ++ List.replicate n 0)
        = some { length := 1, community := [97], community_index := [],
                 pdu_type := 0xA0, pdu_length := 1,
                 request_id := [0, 0, 0, 0], data := List.replicate n 0 } :=
    fun n => parse_shape 1 1 0xA0 [97] [0, 0, 0, 0] (List.replicate n 0)
      (by decide) (by decide) (by decide) (by decide) (by decide) (by decide)
      (by decide) (by decide) (by decide) (by decide) (by decide)
  refine ⟨?_, ?_, ?_⟩
  · intro n
    exact ⟨_, _, hshape n, rfl, by simp⟩
  · exact ⟨_, _, hshape 0, rfl, by simp [setErrorInBounds]⟩
  · intro m
    simp [set_error]

/-! ### C3: the request id is preserved verbatim -/

theorem applyMut_request_id (m : SNMPSequence) (op : Mut) :
    (applyMut m op).request_id = m.request_id := by
  cases op <;> simp [applyMut, set_community, set_pdu_type, set_data, set_error]

theorem applyMuts_request_id (m : SNMPSequence) (ops : List Mut) :
    (applyMuts m ops).request_id = m.request_id := by
  induction ops generalizing m with
  | nil => rfl
  | cons op ops ih =>
    show (applyMuts (applyMut m op) ops).request_id = m.request_id
    rw [ih (applyMut m op), applyMut_request_id]

theorem serialize_split (m : SNMPSequence) :
    serialize m = serializeHead m ++ m.request_id ++ m.data := by
  simp [serialize, serializeHead]

theorem parse_request_id_slice {s : List Nat} {m : SNMPSequence}
    (h : parseSNMP s = some m) :
    m.request_id = (s.drop (pRid s)).take 4 ∧ m.data = s.drop (pData s) ∧
    pData s ≤ s.length := by
  rw [parseSNMP] at h
  by_cases c1 : s.length < 7
  · rw [if_pos c1] at h
    exact Option.noConfusion h
  rw [if_neg c1] at h
  by_cases c2 : s.getD 0 0 ≠ 0x30
  · rw [if_pos c2] at h
    exact Option.noConfusion h
  rw [if_neg c2] at h
  by_cases c3 : (outerLen s).1 = 0
  · rw [if_pos c3] at h
    exact Option.noConfusion h
  rw [if_neg c3] at h
  by_cases c4 : ¬ (s.getD (pVer s) 0 = 2 ∧ s.getD (pVer s + 1) 0 = 1 ∧
      s.getD (pVer s + 2) 0 = 1)
  · rw [if_pos c4] at h
    exact Option.noConfusion h
  rw [if_neg c4] at h
  by_cases c5 : s.getD (pVer s + 3) 0 ≠ 4
  · rw [if_pos c5] at h
    exact Option.noConfusion h
  rw [if_neg c5] at h
  by_cases c6 : (commLen s).1 = 0
  · rw [if_pos c6] at h
    exact Option.noConfusion h
  rw [if_neg c6] at h
  by_cases c7 : s.length < pComm s + (commLen s).1
  · rw [if_pos c7] at h
    exact Option.noConfusion h
  rw [if_neg c7] at h
  by_cases c8 : s.length < pPdu s + 5
  · rw [if_pos c8] at h
    exact Option.noConfusion h
  rw [if_neg c8] at h
  by_cases c9 : ¬ (s.getD (pPdu s) 0 = 0xA0 ∨ s.getD (pPdu s) 0 = 0xA1 ∨
      s.getD (pPdu s) 0 = 0xA2 ∨ s.getD (pPdu s) 0 = 0xA5)
  · rw [if_pos c9] at h
    exact Option.noConfusion h
  rw [if_neg c9] at h
  by_cases c10 : s.getD (pInt s) 0 ≠ 2
  · rw [if_pos c10] at h
    exact Option.noConfusion h
  rw [if_neg c10] at h
  by_cases c11 : s.getD (pInt s + 1) 0 ≠ 4
  · rw [if_pos c11] at h
    exact Option.noConfusion h
  rw [if_neg c11] at h
  by_cases c12 : s.length < pData s
  · rw [if_pos c12] at h
    exact Option.noConfusion h
  rw [if_neg c12] at h
  have hm := (Option.some.inj h).symm
  subst hm
  exact ⟨rfl, rfl, by omega⟩

/-- C3: for every successfully parsed message and every sequence of
`set_community`, `set_pdu_type`, `set_data`, `set_error` calls, the four
request-id bytes in the `Serialize` output are exactly the four bytes found
at the request-id position of the input datagram, in wire order: the output
is the serialized header followed by that input slice and the current data,
and the slice lies inside the input. -/
theorem c3_request_id_preserved (s : List Nat) (m : SNMPSequence) (ops : List Mut)
    (h : parseSNMP s = some m) :
    pRid s + 4 ≤ s.length ∧
    serialize (applyMuts m ops)
      = serializeHead (applyMuts m ops) ++ (s.drop (pRid s)).take 4
        ++ (applyMuts m ops).data := by
  obtain ⟨hrid, hdata, hle⟩ := parse_request_id_slice h
  refine ⟨by rw [pData] at hle; omega, ?_⟩
  rw [serialize_split, applyMuts_request_id, hrid]

/-- Witness for C3: a concrete parsed request mutated by all four mutators
still carries the input's request-id bytes in its serialization. -/
theorem c3_witness :
    pRid sampleBytes + 4 ≤ sampleBytes.length ∧
    serialize (applyMuts sampleMsg
        [Mut.setCommunityM [98], Mut.setPduTypeM 0xA2, Mut.setErrorM 13,
         Mut.setDataM [5, 6, 7]])
      = serializeHead (applyMuts sampleMsg
          [Mut.setCommunityM [98], Mut.setPduTypeM 0xA2, Mut.setErrorM 13,
           Mut.setDataM [5, 6, 7]])
        ++ (sampleBytes.drop (pRid sampleBytes)).take 4
        ++ (applyMuts sampleMsg
            [Mut.setCommunityM [98], Mut.setPduTypeM 0xA2, Mut.setErrorM 13,
             Mut.setDataM [5, 6, 7]]).data :=
  c3_request_id_preserved sampleBytes sampleMsg
    [Mut.setCommunityM [98], Mut.setPduTypeM 0xA2, Mut.setErrorM 13,
     Mut.setDataM [5, 6, 7]] (by decide)

end SNMPProxy
